import Mathlib

/-!
Verification of the ODAN append-only activity ledger ("blockchain" module).

The definitions below are a shallow embedding of the TypeScript ledger
module: blocks, the in-memory chain and its hash index, the on-disk
persistence layer, the append operation with its proof-of-work search,
chain validation, and the read-side query / verification functions.

Modelling conventions:
* the hashing primitive (SHA-256 over the JSON serialization of the five
  hashed fields) is an abstract parameter `H : HashInput → String`;
  collision-freeness is assumed explicitly where a theorem needs it;
* timestamps (`Date` values) are modelled as natural numbers;
* the unbounded proof-of-work `while` loop is modelled with explicit
  fuel; a search that would still be running is an `Option.none` result;
* filesystem writes that can throw are modelled with explicit success
  oracles (`okChainWrite`, `okIndexWrite`); a thrown exception is an
  `Except.error` paired with the state the mutable module globals hold
  at the moment of the throw.
-/

set_option autoImplicit false

namespace Odan

/-- Payload of a ledger record: the runtime shape of the source's
`BlockData` (a `type` tag plus optional identifier / quantity fields;
call sites also attach a `volunteerId`, which the query functions read).
The open-ended `metadata` mapping is modelled as an opaque string. -/
structure BlockData where
  type : String
  userId : Option String
  ticketId : Option String
  responseId : Option String
  certificateId : Option String
  volunteerId : Option String
  timeSpent : Option Nat
  metadata : Option String
deriving DecidableEq

/-- The five fields of a block that are fed to the hashing primitive
(the source's `Omit<Block, 'hash'>`). -/
structure HashInput where
  index : Nat
  timestamp : Nat
  data : BlockData
  prevHash : String
  nonce : Nat
deriving DecidableEq

/-- A full ledger record (the source's `Block`). -/
structure Block where
  index : Nat
  timestamp : Nat
  data : BlockData
  prevHash : String
  nonce : Nat
  hash : String
deriving DecidableEq

/-- The hashed fields of a block. -/
def Block.fields (b : Block) : HashInput :=
  ⟨b.index, b.timestamp, b.data, b.prevHash, b.nonce⟩

/-- Source `calculateHash`: serialize the five fields and hash them.
The serialization plus digest is the abstract primitive `H`. -/
def calculateHash (H : HashInput → String) (b : HashInput) : String :=
  H b

/-- An all-`none` payload, convenient for building concrete payloads. -/
def emptyData : BlockData :=
  ⟨"", none, none, none, none, none, none, none⟩

/-- The metadata object the source stores in the genesis payload
(message, version, creation time). -/
def genesisMetadata (ts : Nat) : String :=
  "ODAN Blockchain Genesis Block v1.0.0 at " ++ toString ts

/-- Source `createGenesisBlock`: index 0, sentinel `prevHash = "0"`,
nonce 0, `GENESIS` payload, self-hash over those fields. -/
def createGenesisBlock (H : HashInput → String) (ts : Nat) : Block :=
  let genesisData : BlockData :=
    ⟨"GENESIS", none, none, none, none, none, none, some (genesisMetadata ts)⟩
  ⟨0, ts, genesisData, "0", 0, calculateHash H ⟨0, ts, genesisData, "0", 0⟩⟩

/-- The values of the source's `BlockchainRecordType` enum (the known
non-genesis event tags). -/
def knownRecordTypes : List String :=
  ["TICKET_CREATED", "TICKET_RESOLVED", "RESPONSE_SUBMITTED", "TIME_LOGGED",
   "CERTIFICATE_ISSUED"]

/-- The difficulty predicate of the proof-of-work search: the hash
string begins with the character `0` (source: `hash.startsWith('0')`,
modelled over the string's character list). -/
def meetsDifficulty (s : String) : Bool :=
  s.data.head? == some '0'

/-- The two per-record checks of `validateChain` at position `i ≥ 1`:
the stored hash equals the hash recomputed from the stored fields, and
the stored `prevHash` equals the previous record's stored hash. -/
def chainCheck (H : HashInput → String) (prev cur : Block) : Bool :=
  (cur.hash == calculateHash H cur.fields) && (cur.prevHash == prev.hash)

/-- The loop of `validateChain`, walking the records after the head. -/
def validateFrom (H : HashInput → String) : Block → List Block → Bool
  | _, [] => true
  | prev, cur :: rest => chainCheck H prev cur && validateFrom H cur rest

/-- Source `validateChain`: checks every record at position `i ≥ 1`
against its predecessor; the record at position 0 is never examined on
its own. -/
def validateChain (H : HashInput → String) : List Block → Bool
  | [] => true
  | b :: rest => validateFrom H b rest

/-- The proof-of-work search: try nonces `n, n + 1, ...` until the
recomputed hash meets the difficulty predicate; `fuel` bounds the
number of attempts the model is willing to evaluate (the source loops
without bound). -/
def findNonce (H : HashInput → String) (base : HashInput) :
    Nat → Nat → Option Nat
  | 0, _ => none
  | fuel + 1, n =>
    if meetsDifficulty (calculateHash H { base with nonce := n }) then some n
    else findNonce H base fuel (n + 1)

/-- The block-construction part of `addRecord`: candidate block with
`index = tail.index + 1`, `prevHash = tail.hash`, nonce found by the
proof-of-work search, hash recomputed at that nonce. -/
def mineBlock (H : HashInput → String) (fuel : Nat) (lastBlock : Block)
    (ty : String) (d : BlockData) (ts : Nat) : Option Block :=
  let blockData : BlockData := { d with type := ty }
  let base : HashInput := ⟨lastBlock.index + 1, ts, blockData, lastBlock.hash, 0⟩
  match findNonce H base fuel 0 with
  | none => none
  | some n =>
    some ⟨lastBlock.index + 1, ts, blockData, lastBlock.hash, n,
      calculateHash H { base with nonce := n }⟩

/-- The on-disk artifacts: `chain.json` and `index.json`.  For the chain
file, `none` means the file is absent, `some none` means it is present
but unreadable or unparseable, and `some (some c)` means it parses to
the record list `c`. -/
structure DiskState where
  chainFile : Option (Option (List Block))
  indexFile : Option (List (String × Nat))
deriving DecidableEq

/-- The module state: the in-memory chain, the in-memory hash → index
map (`chainIndex`, a JS `Map` modelled as an insertion-ordered
association list), and the durable files. -/
structure SysState where
  chain : List Block
  chainIndex : List (String × Nat)
  disk : DiskState
deriving DecidableEq

/-- JS `Map.set`: overwrite the value of an existing key in place, or
append a new entry. -/
def setEntry : List (String × Nat) → String → Nat → List (String × Nat)
  | [], k, v => [(k, v)]
  | (k0, v0) :: rest, k, v =>
    if k0 = k then (k0, v) :: rest else (k0, v0) :: setEntry rest k v

/-- JS `Map.get`. -/
def lookupEntry : List (String × Nat) → String → Option Nat
  | [], _ => none
  | (k0, v0) :: rest, k => if k0 = k then some v0 else lookupEntry rest k

/-- The index rebuild of `loadChain`: `chain.forEach((block, idx) =>
chainIndex.set(block.hash, idx))` starting from offset `i` into
accumulator `acc`. -/
def buildIndexAux : List Block → Nat → List (String × Nat) → List (String × Nat)
  | [], _, acc => acc
  | b :: rest, i, acc => buildIndexAux rest (i + 1) (setEntry acc b.hash i)

/-- Rebuild the hash index positionally from a cleared map. -/
def buildIndex (c : List Block) : List (String × Nat) :=
  buildIndexAux c 0 []

/-- Source `saveChain`: write `chain.json`, then `index.json`; either
`writeFileSync` can throw, in which case the error propagates and the
later writes do not happen. -/
def saveChain (okChainWrite okIndexWrite : Bool) (st : SysState) :
    SysState × Except Unit Unit :=
  if okChainWrite then
    let st1 : SysState :=
      { st with disk := { st.disk with chainFile := some (some st.chain) } }
    if okIndexWrite then
      ({ st1 with disk := { st1.disk with indexFile := some st.chainIndex } },
        Except.ok ())
    else (st1, Except.error ())
  else (st, Except.error ())

/-- The genesis bootstrap shared by the absent-file and corrupt-file
branches of `loadChain`: reset the chain to a fresh genesis block, add
its hash to the (uncleared) index map, and persist. -/
def bootstrapGenesis (H : HashInput → String) (ts : Nat)
    (okChainWrite okIndexWrite : Bool) (st : SysState) :
    SysState × Except Unit Unit :=
  let g := createGenesisBlock H ts
  saveChain okChainWrite okIndexWrite
    { st with chain := [g], chainIndex := setEntry st.chainIndex g.hash 0 }

/-- Source `loadChain`: if `chain.json` parses, install it and rebuild
the index from scratch; if it is absent, or present but unreadable,
bootstrap and persist a fresh genesis chain.  Both bootstrap branches
return exactly the same way; the corrupt case is only logged. -/
def loadChain (H : HashInput → String) (ts : Nat)
    (okChainWrite okIndexWrite : Bool) (st : SysState) :
    SysState × Except Unit Unit :=
  match st.disk.chainFile with
  | some (some c) => ({ st with chain := c, chainIndex := buildIndex c }, Except.ok ())
  | some none => bootstrapGenesis H ts okChainWrite okIndexWrite st
  | none => bootstrapGenesis H ts okChainWrite okIndexWrite st

/-- Source `initBlockchain`: load the chain, then run `validateChain`
for its side effect only (the result is logged and otherwise
discarded; the database sync is an external best-effort mirror). -/
def initBlockchain (H : HashInput → String) (ts : Nat)
    (okChainWrite okIndexWrite : Bool) (st : SysState) :
    SysState × Except Unit Unit :=
  match loadChain H ts okChainWrite okIndexWrite st with
  | (st1, Except.error e) => (st1, Except.error e)
  | (st1, Except.ok _) =>
    let _valid := validateChain H st1.chain
    (st1, Except.ok ())

/-- The module state before `initBlockchain` has ever run: empty chain,
empty index, no durable files. -/
def emptySys : SysState :=
  ⟨[], [], ⟨none, none⟩⟩

/-- The state after the very first `initBlockchain` (no prior durable
state, persistence succeeding): a genesis-only ledger. -/
def freshState (H : HashInput → String) (ts : Nat) : SysState :=
  (loadChain H ts true true emptySys).1

/-- Source `addRecord`: read the tail, mine the candidate block, push it
onto the chain and the hash index, then persist.  A `saveChain` failure
propagates to the caller after the in-memory push has happened.  The
outer `none` covers the states the model does not evaluate: an empty
chain (the source would crash dereferencing `undefined`) or a
proof-of-work search that exceeds the fuel. -/
def addRecord (H : HashInput → String) (fuel : Nat)
    (okChainWrite okIndexWrite : Bool) (st : SysState)
    (ty : String) (d : BlockData) (ts : Nat) :
    Option (SysState × Except Unit Block) :=
  match st.chain.getLast? with
  | none => none
  | some lastBlock =>
    match mineBlock H fuel lastBlock ty d ts with
    | none => none
    | some b =>
      let st1 : SysState :=
        { st with chain := st.chain ++ [b],
                  chainIndex := setEntry st.chainIndex b.hash b.index }
      match saveChain okChainWrite okIndexWrite st1 with
      | (st2, Except.error e) => some (st2, Except.error e)
      | (st2, Except.ok _) => some (st2, Except.ok b)

/-- Source `getBlockByHash`: O(1) lookup through the hash index; an
index value pointing outside the chain yields `undefined`. -/
def getBlockByHash (st : SysState) (h : String) : Option Block :=
  match lookupEntry st.chainIndex h with
  | some i => st.chain[i]?
  | none => none

/-- Source `getBlockByIndex`. -/
def getBlockByIndex (st : SysState) (i : Nat) : Option Block :=
  st.chain[i]?

/-- Source `getRecordsForUser`: records whose payload references the
user through `userId` or `volunteerId`, in ledger order. -/
def getRecordsForUser (c : List Block) (userId : String) : List Block :=
  c.filter fun b =>
    b.data.userId == some userId || b.data.volunteerId == some userId

/-- Source `getRecordsForTicket`. -/
def getRecordsForTicket (c : List Block) (ticketId : String) : List Block :=
  c.filter fun b => b.data.ticketId == some ticketId

/-- The `timeSpent || 0` coercion of the source. -/
def timeSpentOrZero (b : Block) : Nat :=
  b.data.timeSpent.getD 0

/-- Source `calculateUserTime`: total `timeSpent` over the records whose
tag is `RESPONSE_SUBMITTED` or `TIME_LOGGED` and whose `userId` payload
field is this user. -/
def calculateUserTime (c : List Block) (userId : String) : Nat :=
  ((c.filter fun b =>
      (b.data.type == "RESPONSE_SUBMITTED" || b.data.type == "TIME_LOGGED") &&
      b.data.userId == some userId)).foldl
    (fun total b => total + timeSpentOrZero b) 0

/-- Result record of `verifyUserStats`. -/
structure VerifyResult where
  valid : Bool
  actualHours : Nat
  actualTickets : Nat
deriving DecidableEq

/-- Source `verifyUserStats`: actual hours are the floor of the summed
seconds over 3600; actual tickets counts `TICKET_RESOLVED` records with
this user as `volunteerId`; the claim is valid when both actuals are at
least the claimed figures. -/
def verifyUserStats (c : List Block) (userId : String)
    (claimedHours claimedTickets : Nat) : VerifyResult :=
  let actualSeconds := calculateUserTime c userId
  let actualHours := actualSeconds / 3600
  let actualTickets :=
    (c.filter fun b =>
      b.data.type == "TICKET_RESOLVED" && b.data.volunteerId == some userId).length
  ⟨decide (claimedHours ≤ actualHours) && decide (claimedTickets ≤ actualTickets),
    actualHours, actualTickets⟩

/-- Source `getChainLength`. -/
def getChainLength (st : SysState) : Nat :=
  st.chain.length

/-- Source `getLatestBlock` (total version: `none` on the empty chain,
where the source would return `undefined`). -/
def getLatestBlock (st : SysState) : Option Block :=
  st.chain.getLast?

/-! ### Basic lemmas about the hash index -/

theorem lookupEntry_setEntry_self (l : List (String × Nat)) (k : String) (v : Nat) :
    lookupEntry (setEntry l k v) k = some v := by
  induction l with
  | nil => simp [setEntry, lookupEntry]
  | cons p rest ih =>
    obtain ⟨k0, v0⟩ := p
    by_cases h : k0 = k
    · simp [setEntry, lookupEntry, h]
    · simp [setEntry, lookupEntry, h, ih]

theorem lookupEntry_setEntry_ne (l : List (String × Nat)) (k k2 : String) (v : Nat)
    (h : k ≠ k2) : lookupEntry (setEntry l k v) k2 = lookupEntry l k2 := by
  induction l with
  | nil => simp [setEntry, lookupEntry, h]
  | cons p rest ih =>
    obtain ⟨k0, v0⟩ := p
    rw [setEntry]
    by_cases h0 : k0 = k
    · subst h0
      rw [if_pos rfl]
      simp only [lookupEntry]
      rw [if_neg h, if_neg h]
    · rw [if_neg h0]
      simp only [lookupEntry]
      by_cases h2 : k0 = k2
      · rw [if_pos h2, if_pos h2]
      · rw [if_neg h2, if_neg h2, ih]

/-! ### The proof-of-work search -/

theorem findNonce_spec (H : HashInput → String) (base : HashInput) :
    ∀ (fuel k n : Nat), findNonce H base fuel k = some n →
      k ≤ n ∧ meetsDifficulty (calculateHash H { base with nonce := n }) = true ∧
      ∀ m, k ≤ m → m < n →
        meetsDifficulty (calculateHash H { base with nonce := m }) = false := by
  intro fuel
  induction fuel with
  | zero => intro k n h; simp [findNonce] at h
  | succ fuel ih =>
    intro k n h
    rw [findNonce] at h
    by_cases hd : meetsDifficulty (calculateHash H { base with nonce := k }) = true
    · rw [if_pos hd] at h
      have hk : k = n := by injection h
      subst hk
      exact ⟨Nat.le_refl _, hd, fun m h1 h2 => absurd h2 (by omega)⟩
    · rw [if_neg hd] at h
      obtain ⟨h1, h2, h3⟩ := ih (k + 1) n h
      refine ⟨by omega, h2, fun m hm1 hm2 => ?_⟩
      by_cases hmk : m = k
      · subst hmk
        simpa using hd
      · exact h3 m (by omega) hm2

theorem mineBlock_spec (H : HashInput → String) (fuel : Nat) (t : Block)
    (ty : String) (d : BlockData) (ts : Nat) (b : Block)
    (h : mineBlock H fuel t ty d ts = some b) :
    b.index = t.index + 1 ∧ b.timestamp = ts ∧ b.data = { d with type := ty } ∧
    b.prevHash = t.hash ∧ b.hash = calculateHash H b.fields ∧
    meetsDifficulty b.hash = true ∧
    ∀ m, m < b.nonce →
      meetsDifficulty (calculateHash H { b.fields with nonce := m }) = false := by
  simp only [mineBlock] at h
  split at h
  · exact absurd h (by simp)
  · rename_i n hf
    have hb := Option.some.inj h
    subst hb
    obtain ⟨-, h2, h3⟩ := findNonce_spec H _ fuel 0 n hf
    exact ⟨rfl, rfl, rfl, rfl, rfl, h2, fun m hm => h3 m (Nat.zero_le m) hm⟩

/-! ### Persistence -/

theorem saveChain_spec (okC okI : Bool) (st : SysState) :
    (saveChain okC okI st).1.chain = st.chain ∧
    (saveChain okC okI st).1.chainIndex = st.chainIndex ∧
    (∀ c2, (saveChain okC okI st).1.disk.chainFile = some (some c2) →
      c2 = st.chain ∨ st.disk.chainFile = some (some c2)) ∧
    ((saveChain okC okI st).2 = Except.ok () ↔ okC = true ∧ okI = true) := by
  cases okC <;> cases okI <;>
    refine ⟨rfl, rfl, fun c2 hc2 => ?_, by simp [saveChain]⟩ <;>
    simp [saveChain] at hc2 ⊢ <;> simp [hc2]

theorem saveChain_disk_unchanged (okI : Bool) (st : SysState) :
    (saveChain false okI st).1 = st ∧ (saveChain false okI st).2 = Except.error () := by
  exact ⟨rfl, rfl⟩

/-! ### Appending -/

theorem addRecord_some_inv (H : HashInput → String) (fuel : Nat)
    (okC okI : Bool) (st : SysState) (ty : String) (d : BlockData) (ts : Nat)
    (st2 : SysState) (r : Except Unit Block)
    (h : addRecord H fuel okC okI st ty d ts = some (st2, r)) :
    ∃ t b, st.chain.getLast? = some t ∧ mineBlock H fuel t ty d ts = some b ∧
      st2.chain = st.chain ++ [b] ∧
      st2.chainIndex = setEntry st.chainIndex b.hash b.index ∧
      (r = Except.ok b ∨ r = Except.error ()) ∧
      (∀ c2, st2.disk.chainFile = some (some c2) →
        c2 = st.chain ++ [b] ∨ st.disk.chainFile = some (some c2)) := by
  simp only [addRecord] at h
  split at h
  · exact absurd h (by simp)
  · rename_i t hlast
    split at h
    · exact absurd h (by simp)
    · rename_i b hmine
      split at h
      · rename_i st2e e hsave
        obtain ⟨h1, h2⟩ := Prod.mk.injEq .. ▸ Option.some.inj h
        subst h1
        obtain ⟨hc, hi, hd, -⟩ := saveChain_spec okC okI _
        rw [hsave] at hc hi hd
        exact ⟨t, b, hlast, hmine, hc, hi, Or.inr (h2 ▸ rfl), hd⟩
      · rename_i st2o u hsave
        obtain ⟨h1, h2⟩ := Prod.mk.injEq .. ▸ Option.some.inj h
        subst h1
        obtain ⟨hc, hi, hd, -⟩ := saveChain_spec okC okI _
        rw [hsave] at hc hi hd
        exact ⟨t, b, hlast, hmine, hc, hi, Or.inl (h2 ▸ rfl), hd⟩

theorem addRecord_ok_inv (H : HashInput → String) (fuel : Nat)
    (okC okI : Bool) (st : SysState) (ty : String) (d : BlockData) (ts : Nat)
    (st2 : SysState) (r : Block)
    (h : addRecord H fuel okC okI st ty d ts = some (st2, Except.ok r)) :
    ∃ t, st.chain.getLast? = some t ∧ mineBlock H fuel t ty d ts = some r ∧
      st2.chain = st.chain ++ [r] ∧
      st2.chainIndex = setEntry st.chainIndex r.hash r.index := by
  obtain ⟨t, b, hlast, hmine, hc, hi, hr, -⟩ :=
    addRecord_some_inv H fuel okC okI st ty d ts st2 (Except.ok r) h
  rcases hr with hr | hr
  · have hb : r = b := by injection hr
    subst hb
    exact ⟨t, hlast, hmine, hc, hi⟩
  · exact absurd hr (by simp)

/-! ### Characterizing `validateChain` -/

theorem validateFrom_eq_true_iff (H : HashInput → String) (p : Block)
    (l : List Block) :
    validateFrom H p l = true ↔
      ∀ (i : Nat) (b b2 : Block), (p :: l)[i]? = some b → l[i]? = some b2 →
        chainCheck H b b2 = true := by
  induction l generalizing p with
  | nil => simp [validateFrom]
  | cons q l ih =>
    rw [validateFrom, Bool.and_eq_true, ih q]
    constructor
    · rintro ⟨hpq, hrest⟩ i b b2 hb hb2
      match i with
      | 0 =>
        rw [List.getElem?_cons_zero] at hb hb2
        obtain rfl := Option.some.inj hb
        obtain rfl := Option.some.inj hb2
        exact hpq
      | i + 1 =>
        rw [List.getElem?_cons_succ] at hb hb2
        exact hrest i b b2 hb hb2
    · intro hall
      refine ⟨hall 0 p q List.getElem?_cons_zero List.getElem?_cons_zero,
        fun i b b2 hb hb2 => hall (i + 1) b b2 ?_ ?_⟩
      · rw [List.getElem?_cons_succ]; exact hb
      · rw [List.getElem?_cons_succ]; exact hb2

theorem validateChain_eq_true_iff (H : HashInput → String) (ch : List Block) :
    validateChain H ch = true ↔
      ∀ (i : Nat) (b b2 : Block), ch[i]? = some b → ch[i + 1]? = some b2 →
        chainCheck H b b2 = true := by
  cases ch with
  | nil => simp [validateChain]
  | cons p l =>
    rw [validateChain, validateFrom_eq_true_iff]
    constructor
    · intro hall i b b2 hb hb2
      rw [List.getElem?_cons_succ] at hb2
      exact hall i b b2 hb hb2
    · intro hall i b b2 hb hb2
      refine hall i b b2 hb ?_
      rw [List.getElem?_cons_succ]
      exact hb2

theorem chainCheck_eq_true_iff (H : HashInput → String) (prev cur : Block) :
    chainCheck H prev cur = true ↔
      cur.hash = calculateHash H cur.fields ∧ cur.prevHash = prev.hash := by
  simp [chainCheck]

theorem validateChain_append (H : HashInput → String) (ch : List Block)
    (t b : Block) (hv : validateChain H ch = true) (hlast : ch.getLast? = some t)
    (hh : b.hash = calculateHash H b.fields) (hp : b.prevHash = t.hash) :
    validateChain H (ch ++ [b]) = true := by
  rw [validateChain_eq_true_iff] at hv ⊢
  intro i b1 b2 hb1 hb2
  have hlen : i + 1 < ch.length + 1 := by
    by_contra hcon
    rw [List.getElem?_eq_none (by simpa using hcon)] at hb2
    exact absurd hb2 (by simp)
  rcases Nat.lt_or_ge (i + 1) ch.length with hlt | hge
  · rw [List.getElem?_append] at hb1 hb2
    rw [if_pos (by omega)] at hb1
    rw [if_pos hlt] at hb2
    exact hv i b1 b2 hb1 hb2
  · have hi : i + 1 = ch.length := by omega
    have hb2s : b2 = b := by
      rw [hi, List.getElem?_concat_length] at hb2
      exact (Option.some.inj hb2).symm
    have hb1s : b1 = t := by
      rw [List.getElem?_append, if_pos (by omega)] at hb1
      rw [List.getLast?_eq_getElem?] at hlast
      have hidx : ch.length - 1 = i := by omega
      rw [hidx] at hlast
      rw [hb1] at hlast
      exact Option.some.inj hlast
    subst hb2s; subst hb1s
    rw [chainCheck_eq_true_iff]
    exact ⟨hh, hp⟩

/-! ### Reachable states -/

/-- Ledgers built by genesis creation (the first start on an empty
store, persistence succeeding) followed by `n` successful appends. -/
inductive BuiltN (H : HashInput → String) (fuel : Nat) : Nat → SysState → Prop where
  | boot (ts : Nat) : BuiltN H fuel 0 (freshState H ts)
  | step (n : Nat) (st st2 : SysState) (ty : String) (d : BlockData) (ts : Nat)
      (b : Block) (okC okI : Bool) (hprev : BuiltN H fuel n st)
      (hadd : addRecord H fuel okC okI st ty d ts = some (st2, Except.ok b)) :
      BuiltN H fuel (n + 1) st2

/-- States reachable by genesis bootstrap, loads from the durable store,
appends (successful or not), and external corruption of the durable
chain file. -/
inductive Reachable (H : HashInput → String) (fuel : Nat) : SysState → Prop where
  | boot (ts : Nat) : Reachable H fuel (freshState H ts)
  | append (st st2 : SysState) (ty : String) (d : BlockData) (ts : Nat)
      (r : Except Unit Block) (okC okI : Bool) (hprev : Reachable H fuel st)
      (hadd : addRecord H fuel okC okI st ty d ts = some (st2, r)) :
      Reachable H fuel st2
  | load (st st2 : SysState) (ts : Nat) (okC okI : Bool) (r : Except Unit Unit)
      (hprev : Reachable H fuel st)
      (hload : loadChain H ts okC okI st = (st2, r)) :
      Reachable H fuel st2
  | corrupt (st : SysState) (hprev : Reachable H fuel st) :
      Reachable H fuel { st with disk := { st.disk with chainFile := some none } }

/-! ### Invariants of the in-memory state -/

/-- Every stored record's `index` field equals its position. -/
def DenseIndices (ch : List Block) : Prop :=
  ∀ (i : Nat) (b : Block), ch[i]? = some b → b.index = i

/-- Every hash present in the chain is mapped by the index to a position
holding a block with that hash. -/
def IndexOK (ch : List Block) (idx : List (String × Nat)) : Prop :=
  ∀ (i : Nat) (b : Block), ch[i]? = some b →
    ∃ (j : Nat) (b2 : Block), lookupEntry idx b.hash = some j ∧
      ch[j]? = some b2 ∧ b2.hash = b.hash

/-- Any parseable durable chain file holds a dense chain. -/
def DiskOK (d : DiskState) : Prop :=
  ∀ ch, d.chainFile = some (some ch) → DenseIndices ch

/-- The combined system invariant. -/
def InvState (st : SysState) : Prop :=
  DenseIndices st.chain ∧ IndexOK st.chain st.chainIndex ∧ DiskOK st.disk

theorem buildIndexAux_lookup_not_mem (h : String) :
    ∀ (ch : List Block) (off : Nat) (acc : List (String × Nat)),
      (∀ (i : Nat) (b : Block), ch[i]? = some b → b.hash ≠ h) →
      lookupEntry (buildIndexAux ch off acc) h = lookupEntry acc h := by
  intro ch
  induction ch with
  | nil => intro off acc _; rfl
  | cons b0 rest ih =>
    intro off acc hnone
    simp only [buildIndexAux]
    rw [ih (off + 1) _ (fun i b hb => hnone (i + 1) b (by simpa using hb))]
    exact lookupEntry_setEntry_ne acc b0.hash h off
      (hnone 0 b0 List.getElem?_cons_zero)

theorem buildIndexAux_lookup_mem (h : String) :
    ∀ (ch : List Block) (off : Nat) (acc : List (String × Nat)) (i : Nat) (b : Block),
      ch[i]? = some b → b.hash = h →
      ∃ (k : Nat) (b2 : Block),
        lookupEntry (buildIndexAux ch off acc) h = some (off + k) ∧
        ch[k]? = some b2 ∧ b2.hash = h := by
  intro ch
  induction ch with
  | nil => intro off acc i b hb _; simp at hb
  | cons b0 rest ih =>
    intro off acc i b hb hh
    simp only [buildIndexAux]
    by_cases hrest : ∃ (i2 : Nat) (b2 : Block), rest[i2]? = some b2 ∧ b2.hash = h
    · obtain ⟨i2, b2, hb2, hh2⟩ := hrest
      obtain ⟨k, b3, hlook, hk, hh3⟩ :=
        ih (off + 1) (setEntry acc b0.hash off) i2 b2 hb2 hh2
      refine ⟨k + 1, b3, ?_, ?_, hh3⟩
      · rw [hlook]; congr 1; omega
      · simpa using hk
    · push_neg at hrest
      have hb0 : b0.hash = h := by
        match i with
        | 0 =>
          rw [List.getElem?_cons_zero] at hb
          obtain rfl := Option.some.inj hb
          exact hh
        | i + 1 =>
          rw [List.getElem?_cons_succ] at hb
          exact absurd hh (hrest i b hb)
      rw [buildIndexAux_lookup_not_mem h rest (off + 1) _
        (fun i2 b2 hb2 => hrest i2 b2 hb2)]
      refine ⟨0, b0, ?_, List.getElem?_cons_zero, hb0⟩
      rw [Nat.add_zero, ← hb0]
      exact lookupEntry_setEntry_self acc b0.hash off

theorem indexOK_buildIndex (ch : List Block) : IndexOK ch (buildIndex ch) := by
  intro i b hb
  obtain ⟨k, b2, hlook, hk, hh⟩ := buildIndexAux_lookup_mem b.hash ch 0 [] i b hb rfl
  exact ⟨k, b2, by simpa using hlook, hk, hh⟩

theorem denseIndices_singleton (b : Block) (h : b.index = 0) : DenseIndices [b] := by
  intro i bi hbi
  match i with
  | 0 =>
    rw [List.getElem?_cons_zero] at hbi
    obtain rfl := Option.some.inj hbi
    exact h
  | i + 1 => simp at hbi

theorem indexOK_singleton_setEntry (b : Block) (idx : List (String × Nat)) :
    IndexOK [b] (setEntry idx b.hash 0) := by
  intro i bi hbi
  match i with
  | 0 =>
    rw [List.getElem?_cons_zero] at hbi
    obtain rfl := Option.some.inj hbi
    exact ⟨0, b, lookupEntry_setEntry_self idx b.hash 0, List.getElem?_cons_zero, rfl⟩
  | i + 1 => simp at hbi

theorem denseIndices_append (ch : List Block) (t b : Block)
    (hd : DenseIndices ch) (hlast : ch.getLast? = some t)
    (hb : b.index = t.index + 1) : DenseIndices (ch ++ [b]) := by
  have hne : ch ≠ [] := by
    intro he; rw [he] at hlast; exact absurd hlast (by simp)
  have hlenpos : 0 < ch.length := List.length_pos.mpr hne
  rw [List.getLast?_eq_getElem?] at hlast
  have hti : t.index = ch.length - 1 := hd (ch.length - 1) t hlast
  intro i bi hbi
  by_cases hi : i < ch.length
  · rw [List.getElem?_append, if_pos hi] at hbi
    exact hd i bi hbi
  · rw [List.getElem?_append, if_neg hi] at hbi
    have hiz : i - ch.length = 0 := by
      by_contra hz
      rw [List.getElem?_eq_none (by simp; omega)] at hbi
      exact absurd hbi (by simp)
    rw [hiz, List.getElem?_cons_zero] at hbi
    obtain rfl := Option.some.inj hbi
    rw [hb, hti]
    omega

theorem indexOK_append (ch : List Block) (idx : List (String × Nat)) (t b : Block)
    (hio : IndexOK ch idx) (hd : DenseIndices ch) (hlast : ch.getLast? = some t)
    (hbidx : b.index = t.index + 1) :
    IndexOK (ch ++ [b]) (setEntry idx b.hash b.index) := by
  have hne : ch ≠ [] := by
    intro he; rw [he] at hlast; exact absurd hlast (by simp)
  have hlenpos : 0 < ch.length := List.length_pos.mpr hne
  rw [List.getLast?_eq_getElem?] at hlast
  have hti : t.index = ch.length - 1 := hd (ch.length - 1) t hlast
  have hbl : b.index = ch.length := by omega
  intro i bi hbi
  by_cases hi : i < ch.length
  · rw [List.getElem?_append, if_pos hi] at hbi
    by_cases hhash : bi.hash = b.hash
    · refine ⟨ch.length, b, ?_, List.getElem?_concat_length ch b, hhash.symm⟩
      rw [hhash, lookupEntry_setEntry_self idx b.hash b.index, hbl]
    · obtain ⟨j, b2, hlook, hj, hh2⟩ := hio i bi hbi
      obtain ⟨hjlt, -⟩ := List.getElem?_eq_some.mp hj
      refine ⟨j, b2, ?_, ?_, hh2⟩
      · rw [lookupEntry_setEntry_ne idx b.hash bi.hash b.index
          (fun he => hhash he.symm), hlook]
      · rw [List.getElem?_append, if_pos hjlt]; exact hj
  · rw [List.getElem?_append, if_neg hi] at hbi
    have hiz : i - ch.length = 0 := by
      by_contra hz
      rw [List.getElem?_eq_none (by simp; omega)] at hbi
      exact absurd hbi (by simp)
    rw [hiz, List.getElem?_cons_zero] at hbi
    obtain rfl := Option.some.inj hbi
    refine ⟨ch.length, b, ?_, List.getElem?_concat_length ch b, rfl⟩
    rw [lookupEntry_setEntry_self idx b.hash b.index, hbl]

/-! ### The invariant holds in every reachable state -/

theorem freshState_eq (H : HashInput → String) (ts : Nat) :
    freshState H ts =
      ⟨[createGenesisBlock H ts], [((createGenesisBlock H ts).hash, 0)],
        ⟨some (some [createGenesisBlock H ts]),
         some [((createGenesisBlock H ts).hash, 0)]⟩⟩ := rfl

theorem invState_empty : InvState emptySys := by
  refine ⟨?_, ?_, ?_⟩
  · intro i b hb; simp [emptySys] at hb
  · intro i b hb; simp [emptySys] at hb
  · intro ch hch; simp [emptySys] at hch

theorem invState_bootstrap (H : HashInput → String) (ts : Nat) (okC okI : Bool)
    (st st2 : SysState) (r : Except Unit Unit) (hdk : DiskOK st.disk)
    (h : bootstrapGenesis H ts okC okI st = (st2, r)) : InvState st2 := by
  rw [bootstrapGenesis] at h
  have hst2 := congrArg Prod.fst h
  obtain ⟨hc, hi, hdisk, -⟩ := saveChain_spec okC okI
    { st with chain := [createGenesisBlock H ts],
              chainIndex := setEntry st.chainIndex (createGenesisBlock H ts).hash 0 }
  rw [hst2] at hc hi hdisk
  refine ⟨?_, ?_, ?_⟩
  · rw [hc]
    exact denseIndices_singleton _ rfl
  · rw [hc, hi]
    exact indexOK_singleton_setEntry _ _
  · intro c2 hc2
    rcases hdisk c2 hc2 with h1 | h1
    · rw [h1]
      exact denseIndices_singleton _ rfl
    · exact hdk c2 h1

theorem invState_load (H : HashInput → String) (ts : Nat) (okC okI : Bool)
    (st st2 : SysState) (r : Except Unit Unit) (hinv : InvState st)
    (h : loadChain H ts okC okI st = (st2, r)) : InvState st2 := by
  obtain ⟨hd, hio, hdk⟩ := hinv
  rw [loadChain] at h
  split at h
  · rename_i c2 hcf
    obtain ⟨h1, h2⟩ := Prod.mk.injEq .. ▸ h
    refine ⟨?_, ?_, ?_⟩
    · rw [← h1]
      exact hdk c2 hcf
    · rw [← h1]
      exact indexOK_buildIndex c2
    · rw [← h1]
      exact hdk
  · exact invState_bootstrap H ts okC okI st st2 r hdk h
  · exact invState_bootstrap H ts okC okI st st2 r hdk h

theorem invState_fresh (H : HashInput → String) (ts : Nat) :
    InvState (freshState H ts) :=
  invState_load H ts true true emptySys (freshState H ts)
    (loadChain H ts true true emptySys).2 invState_empty Prod.mk.eta.symm

theorem invState_append (H : HashInput → String) (fuel : Nat) (okC okI : Bool)
    (st : SysState) (ty : String) (d : BlockData) (ts : Nat)
    (st2 : SysState) (r : Except Unit Block) (hinv : InvState st)
    (h : addRecord H fuel okC okI st ty d ts = some (st2, r)) : InvState st2 := by
  obtain ⟨hd, hio, hdk⟩ := hinv
  obtain ⟨t, b, hlast, hmine, hc, hi, -, hdisk⟩ :=
    addRecord_some_inv H fuel okC okI st ty d ts st2 r h
  obtain ⟨hbi, -, -, -, -, -, -⟩ := mineBlock_spec H fuel t ty d ts b hmine
  refine ⟨?_, ?_, ?_⟩
  · rw [hc]
    exact denseIndices_append st.chain t b hd hlast hbi
  · rw [hc, hi]
    exact indexOK_append st.chain st.chainIndex t b hio hd hlast hbi
  · intro c2 hc2
    rcases hdisk c2 hc2 with h1 | h1
    · rw [h1]
      exact denseIndices_append st.chain t b hd hlast hbi
    · exact hdk c2 h1

theorem reachable_invState (H : HashInput → String) (fuel : Nat) (st : SysState)
    (h : Reachable H fuel st) : InvState st := by
  induction h with
  | boot ts => exact invState_fresh H ts
  | append st st2 ty d ts r okC okI hprev hadd ih =>
    exact invState_append H fuel okC okI st ty d ts st2 r ih hadd
  | load st st2 ts okC okI r hprev hload ih =>
    exact invState_load H ts okC okI st st2 r ih hload
  | corrupt st hprev ih =>
    exact ⟨ih.1, ih.2.1, fun c2 hc2 => by simp at hc2⟩

/-! ### Lengths, density and validity along `BuiltN` -/

theorem builtN_chain_spec (H : HashInput → String) (fuel : Nat)
    (n : Nat) (st : SysState) (h : BuiltN H fuel n st) :
    st.chain.length = n + 1 ∧ DenseIndices st.chain ∧
    validateChain H st.chain = true := by
  induction h with
  | boot ts =>
    refine ⟨?_, ?_, ?_⟩
    · rw [freshState_eq]
      rfl
    · rw [freshState_eq]
      exact denseIndices_singleton _ rfl
    · rw [freshState_eq]
      rfl
  | step n st st2 ty d ts b okC okI hprev hadd ih =>
    obtain ⟨hlen, hd, hv⟩ := ih
    obtain ⟨t, hlast, hmine, hc, hi⟩ :=
      addRecord_ok_inv H fuel okC okI st ty d ts st2 b hadd
    obtain ⟨hbi, -, -, hph, hhash, -, -⟩ := mineBlock_spec H fuel t ty d ts b hmine
    refine ⟨?_, ?_, ?_⟩
    · rw [hc]
      simp [hlen]
    · rw [hc]
      exact denseIndices_append st.chain t b hd hlast hbi
    · rw [hc]
      exact validateChain_append H st.chain t b hv hlast hhash hph

/-! ### Tampering detection -/

/-- Collision-freeness of the hashing primitive on a given list of
inputs: among the listed inputs, equal hashes come only from equal
inputs. -/
def InjOnInputs (H : HashInput → String) (l : List HashInput) : Prop :=
  ∀ x ∈ l, ∀ y ∈ l, calculateHash H x = calculateHash H y → x = y

/-- A single stored field of a record was tampered with: exactly one of
`data` (the payload), `prevHash`, or `hash` differs, and every other
stored field is kept. -/
def mutatedOneField (old new : Block) : Prop :=
  (new.data ≠ old.data ∧ new.index = old.index ∧ new.timestamp = old.timestamp ∧
    new.prevHash = old.prevHash ∧ new.nonce = old.nonce ∧ new.hash = old.hash) ∨
  (new.prevHash ≠ old.prevHash ∧ new.index = old.index ∧
    new.timestamp = old.timestamp ∧ new.data = old.data ∧ new.nonce = old.nonce ∧
    new.hash = old.hash) ∨
  (new.hash ≠ old.hash ∧ new.index = old.index ∧ new.timestamp = old.timestamp ∧
    new.data = old.data ∧ new.prevHash = old.prevHash ∧ new.nonce = old.nonce)

instance instDecidableEqExcept {ε α : Type} [DecidableEq ε] [DecidableEq α] :
    DecidableEq (Except ε α) := fun a b =>
  match a, b with
  | Except.error e1, Except.error e2 =>
    decidable_of_iff (e1 = e2) (by simp)
  | Except.ok x, Except.ok y =>
    decidable_of_iff (x = y) (by simp)
  | Except.error _, Except.ok _ => isFalse (by simp)
  | Except.ok _, Except.error _ => isFalse (by simp)

instance instDecidableInjOnInputs (H : HashInput → String) (l : List HashInput) :
    Decidable (InjOnInputs H l) := by
  unfold InjOnInputs
  infer_instance

instance instDecidableMutatedOneField (old new : Block) :
    Decidable (mutatedOneField old new) := by
  unfold mutatedOneField
  infer_instance

theorem validateChain_set_mutated_false (H : HashInput → String)
    (ch : List Block) (i : Nat) (h1 : 1 ≤ i) (h2 : i < ch.length) (b2 : Block)
    (hv : validateChain H ch = true)
    (hinj : InjOnInputs H (ch.map Block.fields ++ [b2.fields]))
    (hmut : mutatedOneField (ch.get ⟨i, h2⟩) b2) :
    validateChain H (ch.set i b2) = false := by
  have h2' : i - 1 < ch.length := by omega
  have holdq : ch[i]? = some (ch.get ⟨i, h2⟩) := by
    rw [List.getElem?_eq_getElem h2, List.get_eq_getElem]
  have hprevq : ch[i - 1]? = some (ch.get ⟨i - 1, h2'⟩) := by
    rw [List.getElem?_eq_getElem h2', List.get_eq_getElem]
  have hpair := (validateChain_eq_true_iff H ch).mp hv (i - 1) _ _ hprevq (by
    have hii : i - 1 + 1 = i := by omega
    rw [hii]
    exact holdq)
  have hold_hash :
      (ch.get ⟨i, h2⟩).hash = calculateHash H (ch.get ⟨i, h2⟩).fields :=
    ((chainCheck_eq_true_iff H _ _).mp hpair).1
  by_contra hcon
  have hset : validateChain H (ch.set i b2) = true := by
    cases hval : validateChain H (ch.set i b2)
    · exact absurd hval hcon
    · rfl
  have hsp : (ch.set i b2)[i - 1]? = some (ch.get ⟨i - 1, h2'⟩) := by
    rw [List.getElem?_set_ne (by omega)]
    exact hprevq
  have hsq : (ch.set i b2)[(i - 1) + 1]? = some b2 := by
    have hii : i - 1 + 1 = i := by omega
    rw [hii]
    exact List.getElem?_set_self h2
  have hsetpair := (validateChain_eq_true_iff H _).mp hset (i - 1) _ b2 hsp hsq
  obtain ⟨hc1, hc2⟩ := (chainCheck_eq_true_iff H _ _).mp hsetpair
  have mold : (ch.get ⟨i, h2⟩).fields ∈ ch.map Block.fields ++ [b2.fields] :=
    List.mem_append_left _ (List.mem_map_of_mem Block.fields (List.get_mem ch i h2))
  have mb2 : b2.fields ∈ ch.map Block.fields ++ [b2.fields] :=
    List.mem_append_right _ (List.mem_singleton.mpr rfl)
  rcases hmut with ⟨hdata, hidx, hts, hph, hnonce, hhash⟩ |
    ⟨hph, hidx, hts, hdata, hnonce, hhash⟩ |
    ⟨hhash, hidx, hts, hdata, hph, hnonce⟩
  · have hfe : b2.fields = (ch.get ⟨i, h2⟩).fields := by
      apply hinj _ mb2 _ mold
      rw [← hc1, hhash]
      exact hold_hash
    exact hdata (congrArg HashInput.data hfe)
  · have hfe : b2.fields = (ch.get ⟨i, h2⟩).fields := by
      apply hinj _ mb2 _ mold
      rw [← hc1, hhash]
      exact hold_hash
    exact hph (congrArg HashInput.prevHash hfe)
  · have hfe : b2.fields = (ch.get ⟨i, h2⟩).fields := by
      show (⟨b2.index, b2.timestamp, b2.data, b2.prevHash, b2.nonce⟩ : HashInput) =
        ⟨(ch.get ⟨i, h2⟩).index, (ch.get ⟨i, h2⟩).timestamp, (ch.get ⟨i, h2⟩).data,
         (ch.get ⟨i, h2⟩).prevHash, (ch.get ⟨i, h2⟩).nonce⟩
      rw [hidx, hts, hdata, hph, hnonce]
    apply hhash
    rw [hc1, hfe]
    exact hold_hash.symm

/-! ### Toy hashing primitives and concrete states for the witnesses -/

/-- A toy hashing primitive whose every output is `"0"`: the
proof-of-work search always succeeds immediately. -/
def Hw0 : HashInput → String := fun _ => "0"

/-- A toy hashing primitive that keeps the payload tag and the previous
hash visible in the output: the concrete witness inputs below hash
pairwise differently while every hash still starts with `'0'`. -/
def Hw1 : HashInput → String := fun inp => "0" ++ inp.data.type ++ inp.prevHash

/-- The genesis block of the `Hw1` toy ledger. -/
def gW1 : Block := createGenesisBlock Hw1 0

/-- The concrete result of one successful append on the fresh `Hw1`
ledger. -/
def arW1 : SysState × Except Unit Block :=
  (addRecord Hw1 1 true true (freshState Hw1 0) "TIME_LOGGED" emptyData 1).getD
    (emptySys, Except.error ())

/-- The state after that append: a two-record ledger. -/
def stW2 : SysState := arW1.1

/-- The appended record itself. -/
def bW1 : Block := arW1.2.toOption.getD gW1

/-- The appended record with its payload tampered. -/
def bW1mut : Block := { bW1 with data := { bW1.data with type := "TAMPERED" } }

/-- A record that stores the same hash as `gW1` but whose stored fields
do not reproduce it: its self-hash check would fail, were it run. -/
def gBadW : Block :=
  ⟨0, 0, { emptyData with type := "EVIL" }, "0", 7, "0" ++ "GENESIS" ++ "0"⟩

/-! ### C1 -/

/-- C1: for every valid ledger — one built by genesis creation followed
by successful appends — `validateChain` returns true; and for any
mutation of one stored field (payload, `prevHash`, or `hash`) of any
single non-head record of such a ledger, `validateChain` returns false,
assuming the content hash is collision-free on the inputs involved. -/
theorem claim_C1_chain_integrity (H : HashInput → String) (fuel : Nat) :
    (∀ (n : Nat) (st : SysState), BuiltN H fuel n st →
      validateChain H st.chain = true) ∧
    (∀ (n : Nat) (st : SysState), BuiltN H fuel n st →
      ∀ (i : Nat), 1 ≤ i → ∀ (h2 : i < st.chain.length) (b2 : Block),
        InjOnInputs H (st.chain.map Block.fields ++ [b2.fields]) →
        mutatedOneField (st.chain.get ⟨i, h2⟩) b2 →
        validateChain H (st.chain.set i b2) = false) := by
  have hpart1 : ∀ (n : Nat) (st : SysState), BuiltN H fuel n st →
      validateChain H st.chain = true :=
    fun n st h => (builtN_chain_spec H fuel n st h).2.2
  refine ⟨hpart1, fun n st h i h1 h2 b2 hinj hmut => ?_⟩
  exact validateChain_set_mutated_false H st.chain i h1 h2 b2
    (hpart1 n st h) hinj hmut

/-- Witness for C1: the fresh toy ledger validates, and after one
successful append, tampering with the appended record's payload makes
validation fail. -/
theorem claim_C1_chain_integrity_witness :
    validateChain Hw1 (freshState Hw1 0).chain = true ∧
    validateChain Hw1 (stW2.chain.set 1 bW1mut) = false :=
  ⟨(claim_C1_chain_integrity Hw1 1).1 0 (freshState Hw1 0) (BuiltN.boot 0),
   (claim_C1_chain_integrity Hw1 1).2 1 stW2
     (BuiltN.step 0 (freshState Hw1 0) stW2 ("TIME_LOGGED") emptyData 1 bW1
       true true (BuiltN.boot 0) (by decide))
     1 (by decide) (by decide) bW1mut (by decide) (by decide)⟩

/-! ### C7 -/

/-- C7 (corrected): the genesis record is exempt from the backward-link
check and also from the self-hash check — `validateChain` reads the
head record only through its stored `hash` value (as the link target of
record 1), so two head records with equal stored hashes are completely
interchangeable, whether or not their stored fields reproduce that
hash. -/
theorem claim_C7_genesis_exempt (H : HashInput → String) (g g2 : Block)
    (rest : List Block) (hh : g.hash = g2.hash) :
    validateChain H (g :: rest) = validateChain H (g2 :: rest) := by
  cases rest with
  | nil => rfl
  | cons q l =>
    rw [validateChain, validateChain, validateFrom, validateFrom,
      chainCheck, chainCheck, hh]

/-- Witness for C7: a head record whose stored fields do not reproduce
its stored hash validates exactly like the honest genesis record. -/
theorem claim_C7_genesis_exempt_witness :
    validateChain Hw1 [gBadW] = validateChain Hw1 [gW1] ∧
    gBadW.hash ≠ calculateHash Hw1 gBadW.fields :=
  ⟨claim_C7_genesis_exempt Hw1 gBadW gW1 [] (by decide), by decide⟩

/-- Counterexample to C7 as stated: a single-record ledger whose genesis
record's stored hash differs from the hash recomputed over its stored
fields, on which `validateChain` still returns true. -/
theorem claim_C7_counterexample :
    gBadW.hash ≠ calculateHash Hw1 gBadW.fields ∧
    validateChain Hw1 [gBadW] = true :=
  ⟨by decide, rfl⟩

/-! ### More concrete witness material over the constant toy hash -/

/-- The genesis block of the `Hw0` toy ledger. -/
def gW0 : Block := createGenesisBlock Hw0 0

/-- The block mined by a first append on the `Hw0` ledger. -/
def bW0 : Block := (mineBlock Hw0 1 gW0 ("TIME_LOGGED") emptyData 1).getD gW0

/-- The block mined with an unknown event tag. -/
def bBW : Block := (mineBlock Hw0 1 gW0 ("BOGUS_TAG") emptyData 1).getD gW0

/-! ### C2 -/

/-- C2 (corrected): when persisting the chain file fails during append,
the error is surfaced to the caller (the call returns the error rather
than a record) and the durable state is unchanged, but the in-memory
state is not rolled back: the record sequence keeps the newly mined
record as its tail and the hash index keeps the new entry. -/
theorem claim_C2_append_save_failure (H : HashInput → String) (fuel : Nat)
    (okI : Bool) (st : SysState) (ty : String) (d : BlockData) (ts : Nat)
    (t b : Block) (hlast : st.chain.getLast? = some t)
    (hmine : mineBlock H fuel t ty d ts = some b) :
    addRecord H fuel false okI st ty d ts =
      some ({ st with chain := st.chain ++ [b],
                      chainIndex := setEntry st.chainIndex b.hash b.index },
            Except.error ()) := by
  simp [addRecord, hlast, hmine, saveChain]

/-- Witness for C2: the failed-persistence append on the concrete fresh
toy ledger, evaluated. -/
theorem claim_C2_append_save_failure_witness :
    addRecord Hw0 1 false false (freshState Hw0 0) "TIME_LOGGED" emptyData 1 =
      some ({ freshState Hw0 0 with
                chain := (freshState Hw0 0).chain ++ [bW0],
                chainIndex := setEntry (freshState Hw0 0).chainIndex bW0.hash
                  bW0.index },
            Except.error ()) :=
  claim_C2_append_save_failure Hw0 1 false (freshState Hw0 0) "TIME_LOGGED"
    emptyData 1 gW0 bW0 (by decide) (by decide)

/-- C2 counterexample: on the concrete fresh toy ledger, an append whose
persistence write fails surfaces the error, yet the in-memory chain has
grown to two records — it is not rolled back to the pre-append state. -/
theorem claim_C2_counterexample :
    (addRecord Hw0 1 false false (freshState Hw0 0) "TIME_LOGGED" emptyData 1).map
        (fun p => (getChainLength p.1, p.2.isOk)) = some (2, false) ∧
    getChainLength (freshState Hw0 0) = 1 ∧
    (addRecord Hw0 1 false false (freshState Hw0 0) "TIME_LOGGED" emptyData 1).map
        Prod.fst ≠ some (freshState Hw0 0) :=
  ⟨by decide, rfl, by decide⟩

/-! ### C3 -/

/-- C3: a successful append on a ledger with tail record `t` returns a
record `r` with `r.index = t.index + 1`, `r.prevHash = t.hash`, `r.hash`
equal to the hashing primitive applied to `r`'s other stored fields and
meeting the difficulty predicate (it begins with the character `'0'`),
and `r.nonce` the least nonce from 0 upward whose resulting hash meets
the difficulty predicate. -/
theorem claim_C3_append_result (H : HashInput → String) (fuel : Nat)
    (okC okI : Bool) (st : SysState) (ty : String) (d : BlockData) (ts : Nat)
    (st2 : SysState) (t r : Block)
    (hlast : st.chain.getLast? = some t)
    (hadd : addRecord H fuel okC okI st ty d ts = some (st2, Except.ok r)) :
    r.index = t.index + 1 ∧ r.prevHash = t.hash ∧
    r.hash = calculateHash H r.fields ∧ meetsDifficulty r.hash = true ∧
    ∀ (m : Nat), m < r.nonce →
      meetsDifficulty (calculateHash H { r.fields with nonce := m }) = false := by
  obtain ⟨t2, hlast2, hmine, -, -⟩ :=
    addRecord_ok_inv H fuel okC okI st ty d ts st2 r hadd
  rw [hlast] at hlast2
  obtain rfl := Option.some.inj hlast2
  obtain ⟨hidx, -, -, hph, hhash, hdiff, hmin⟩ :=
    mineBlock_spec H fuel t ty d ts r hmine
  exact ⟨hidx, hph, hhash, hdiff, hmin⟩

/-- Witness for C3: the record appended to the concrete fresh toy
ledger links to the genesis tail and meets the difficulty predicate. -/
theorem claim_C3_append_result_witness :
    bW0.index = gW0.index + 1 ∧ bW0.prevHash = gW0.hash ∧
    meetsDifficulty bW0.hash = true :=
  have h := claim_C3_append_result Hw0 1 true true (freshState Hw0 0)
    "TIME_LOGGED" emptyData 1
    ((addRecord Hw0 1 true true (freshState Hw0 0) "TIME_LOGGED" emptyData
      1).getD (emptySys, Except.error ())).1 gW0 bW0 (by decide) (by decide)
  ⟨h.1, h.2.1, h.2.2.2.1⟩

/-! ### C4 -/

/-- C4: starting from a fresh genesis-only ledger, after `n` successful
appends the ledger length is `n + 1`, and every stored record's `index`
equals its position — the ledger is a dense, 0-based, append-only
sequence, and every append preserves this. -/
theorem claim_C4_monotonic_append (H : HashInput → String) (fuel : Nat)
    (n : Nat) (st : SysState) (h : BuiltN H fuel n st) :
    getChainLength st = n + 1 ∧
    ∀ (i : Nat) (b : Block), st.chain[i]? = some b → b.index = i := by
  obtain ⟨h1, h2, -⟩ := builtN_chain_spec H fuel n st h
  exact ⟨h1, h2⟩

/-- Witness for C4 after zero and after one successful append on the
concrete toy ledger. -/
theorem claim_C4_monotonic_append_witness :
    getChainLength (freshState Hw1 0) = 0 + 1 ∧ getChainLength stW2 = 1 + 1 :=
  ⟨(claim_C4_monotonic_append Hw1 1 0 (freshState Hw1 0) (BuiltN.boot 0)).1,
   (claim_C4_monotonic_append Hw1 1 1 stW2
     (BuiltN.step 0 (freshState Hw1 0) stW2 ("TIME_LOGGED") emptyData 1 bW1
       true true (BuiltN.boot 0) (by decide))).1⟩

/-! ### C8 -/

/-- C8 (corrected): `addRecord` performs no runtime validation of the
event tag — for a tag that is not one of the known record types the
call proceeds exactly as for a known tag: it mines a record whose
payload tag is the given string, appends it to the chain and the hash
index, and persists it; unknown tags are excluded only by the
compile-time type of the source function, not by any input-validation
error. -/
theorem claim_C8_no_tag_validation (H : HashInput → String) (fuel : Nat)
    (st : SysState) (ty : String) (d : BlockData) (ts : Nat) (t b : Block)
    (_hunknown : ty ∉ knownRecordTypes)
    (hlast : st.chain.getLast? = some t)
    (hmine : mineBlock H fuel t ty d ts = some b) :
    addRecord H fuel true true st ty d ts =
      some (⟨st.chain ++ [b], setEntry st.chainIndex b.hash b.index,
             ⟨some (some (st.chain ++ [b])),
              some (setEntry st.chainIndex b.hash b.index)⟩⟩,
            Except.ok b) ∧
    b.data.type = ty := by
  obtain ⟨-, -, hdata, -, -, -, -⟩ := mineBlock_spec H fuel t ty d ts b hmine
  refine ⟨?_, by rw [hdata]⟩
  simp [addRecord, hlast, hmine, saveChain]

/-- Witness for C8: the unknown tag `"BOGUS_TAG"` is appended verbatim
as the payload tag of the mined record. -/
theorem claim_C8_no_tag_validation_witness : bBW.data.type = "BOGUS_TAG" :=
  (claim_C8_no_tag_validation Hw0 1 (freshState Hw0 0) "BOGUS_TAG" emptyData 1
    gW0 bBW (by decide) (by decide) (by decide)).2

/-- C8 counterexample: a concrete append with the unknown tag
`"BOGUS_TAG"` is not rejected — it succeeds and grows the ledger. -/
theorem claim_C8_counterexample :
    "BOGUS_TAG" ∉ knownRecordTypes ∧
    (addRecord Hw0 1 true true (freshState Hw0 0) "BOGUS_TAG" emptyData 1).map
      (fun p => (getChainLength p.1, p.2.isOk)) = some (2, true) :=
  ⟨by decide, by decide⟩

/-! ### C5 -/

/-- The verification formula exactly as the specification words it:
actual hours are the floor of the summed seconds over 3600, the actual
ticket count is the number of `TICKET_RESOLVED` records whose resolving
volunteer is this user, and the claim is valid iff both actuals are at
least the claimed figures. -/
def specVerifyClaim (ch : List Block) (userId : String)
    (claimedHours claimedTickets : Nat) : VerifyResult :=
  let actualHours := calculateUserTime ch userId / 3600
  let actualTickets := ch.countP fun b =>
    b.data.type == "TICKET_RESOLVED" && b.data.volunteerId == some userId
  ⟨decide (claimedHours ≤ actualHours) && decide (claimedTickets ≤ actualTickets),
    actualHours, actualTickets⟩

/-- C5: `verifyUserStats` returns exactly the specification's formula —
`actualHours` is the floor of the summed seconds over 3600,
`actualTickets` counts the `TICKET_RESOLVED` records resolved by this
volunteer, and `valid = true` iff both actuals are at least the claimed
figures (at-least semantics: equality on both dimensions passes, any
one dimension below its claim fails the whole claim). -/
theorem claim_C5_verify_claim (ch : List Block) (u : String)
    (claimedHours claimedTickets : Nat) :
    verifyUserStats ch u claimedHours claimedTickets =
      specVerifyClaim ch u claimedHours claimedTickets ∧
    ((verifyUserStats ch u claimedHours claimedTickets).valid = true ↔
      claimedHours ≤ (verifyUserStats ch u claimedHours claimedTickets).actualHours ∧
      claimedTickets ≤
        (verifyUserStats ch u claimedHours claimedTickets).actualTickets) := by
  constructor
  · simp [verifyUserStats, specVerifyClaim, List.countP_eq_length_filter]
  · simp [verifyUserStats]

/-! ### C6 -/

/-- The aggregation as the specification words it: a pure fold over
`getRecordsForUser`, keeping the `RESPONSE_SUBMITTED` / `TIME_LOGGED`
records and summing their time-spent quantity. -/
def specSumTimeForUser (ch : List Block) (userId : String) : Nat :=
  ((getRecordsForUser ch userId).filter fun b =>
      b.data.type == "RESPONSE_SUBMITTED" || b.data.type == "TIME_LOGGED").foldl
    (fun total b => total + timeSpentOrZero b) 0

/-- C6 (corrected): `calculateUserTime` sums the time-spent quantity
over exactly those records whose tag is `RESPONSE_SUBMITTED` or
`TIME_LOGGED` and whose `userId` payload field is the user — records
attributed to the user only through `volunteerId` contribute nothing,
so the sum ranges over a strict subset of `getRecordsForUser` in
general, not over all of its tag-qualifying records. -/
theorem claim_C6_sum_time (ch : List Block) (u : String) :
    calculateUserTime ch u =
      ((getRecordsForUser ch u).filter fun b =>
          (b.data.type == "RESPONSE_SUBMITTED" || b.data.type == "TIME_LOGGED") &&
          b.data.userId == some u).foldl
        (fun total b => total + timeSpentOrZero b) 0 := by
  rw [calculateUserTime, getRecordsForUser, List.filter_filter]
  congr 1
  apply List.filter_congr
  intro b _
  cases hx : (b.data.type == "RESPONSE_SUBMITTED" || b.data.type == "TIME_LOGGED") <;>
    cases hy : (b.data.userId == some u) <;>
      simp [hx, hy]

/-- A record attributed to `"u1"` only through `volunteerId`, with a
qualifying tag and a nonzero time-spent quantity. -/
def volunteerOnlyData : BlockData :=
  { emptyData with
      type := "TIME_LOGGED"
      userId := some ("someone-else")
      volunteerId := some ("u1")
      timeSpent := some 100 }

/-- The single-record ledger entry built from that payload. -/
def volunteerOnlyBlock : Block :=
  ⟨1, 0, volunteerOnlyData, "0", 0, "0"⟩

/-- C6 counterexample: on a ledger holding one `TIME_LOGGED` record that
references `"u1"` only as `volunteerId`, the claim's formula (fold over
`getRecordsForUser` restricted to qualifying tags) yields 100, but the
source's `calculateUserTime` yields 0. -/
theorem claim_C6_counterexample :
    calculateUserTime [volunteerOnlyBlock] "u1" = 0 ∧
    specSumTimeForUser [volunteerOnlyBlock] "u1" = 100 ∧
    calculateUserTime [volunteerOnlyBlock] "u1" ≠
      specSumTimeForUser [volunteerOnlyBlock] "u1" :=
  ⟨rfl, rfl, by decide⟩

/-! ### C9 -/

/-- C9 (corrected): when the durable chain file is present but corrupt,
loading re-bootstraps a fresh genesis-only chain (length 1) and, with
persistence succeeding, writes it back to disk and returns plain
success — but no distinct `chain was reset` status is surfaced to the
caller: the call is observationally identical to the first-run
bootstrap on an absent file (the condition is only logged). -/
theorem claim_C9_corrupt_reset (H : HashInput → String) (ts : Nat)
    (st : SysState) (hcor : st.disk.chainFile = some none) :
    loadChain H ts true true st =
      loadChain H ts true true
        { st with disk := { st.disk with chainFile := none } } ∧
    (loadChain H ts true true st).1.chain = [createGenesisBlock H ts] ∧
    (loadChain H ts true true st).1.disk.chainFile =
      some (some [createGenesisBlock H ts]) ∧
    (loadChain H ts true true st).2 = Except.ok () := by
  refine ⟨?_, ?_, ?_, ?_⟩ <;>
    simp [loadChain, hcor, bootstrapGenesis, saveChain]

/-- A state whose durable chain file is present but corrupt. -/
def stCorW : SysState := ⟨[], [], ⟨some none, none⟩⟩

/-- Witness for C9 at a concrete corrupt store. -/
theorem claim_C9_corrupt_reset_witness :
    loadChain Hw0 5 true true stCorW =
      loadChain Hw0 5 true true
        { stCorW with disk := { stCorW.disk with chainFile := none } } ∧
    (loadChain Hw0 5 true true stCorW).1.chain = [createGenesisBlock Hw0 5] :=
  have h := claim_C9_corrupt_reset Hw0 5 stCorW rfl
  ⟨h.1, h.2.1⟩

/-- C9 counterexample: loading the concrete corrupt store returns
exactly the same value and resulting state as the first-run bootstrap
on an empty store, and reports plain success — there is no distinct
`chain was reset` status for callers to detect. -/
theorem claim_C9_counterexample :
    loadChain Hw0 5 true true stCorW = loadChain Hw0 5 true true emptySys ∧
    (loadChain Hw0 5 true true stCorW).2 = Except.ok () :=
  ⟨rfl, rfl⟩

/-! ### C10 -/

/-- C10: in every reachable state — genesis bootstrap, loads from the
durable store, appends, even external corruption of the store — whose
in-memory chain has pairwise distinct block hashes, looking up any
stored record's hash through `getBlockByHash` returns that record
itself: the hash-to-index map stays consistent with the sequence under
every operation. -/
theorem claim_C10_hash_lookup (H : HashInput → String) (fuel : Nat)
    (st : SysState) (hr : Reachable H fuel st)
    (hdist : st.chain.Pairwise fun a b => a.hash ≠ b.hash) :
    ∀ (i : Nat) (b : Block), st.chain[i]? = some b →
      getBlockByHash st b.hash = some b := by
  intro i b hb
  obtain ⟨-, hio, -⟩ := reachable_invState H fuel st hr
  obtain ⟨j, b2, hlook, hj, hh⟩ := hio i b hb
  have hij : j = i := by
    by_contra hne
    obtain ⟨hilt, hie⟩ := List.getElem?_eq_some.mp hb
    obtain ⟨hjlt, hje⟩ := List.getElem?_eq_some.mp hj
    rw [List.pairwise_iff_getElem] at hdist
    rcases Nat.lt_or_ge j i with hlt | hge
    · exact hdist j i hjlt hilt hlt (by rw [hje, hie]; exact hh)
    · exact hdist i j hilt hjlt (by omega) (by rw [hje, hie]; exact hh.symm)
  subst hij
  have hbb : some b = some b2 := by rw [← hb, ← hj]
  obtain rfl := Option.some.inj hbb
  simp only [getBlockByHash]
  rw [hlook]
  exact hj

/-- Witness for C10: the genesis hash lookup on the fresh toy ledger. -/
theorem claim_C10_hash_lookup_witness :
    getBlockByHash (freshState Hw1 0) gW1.hash = some gW1 :=
  claim_C10_hash_lookup Hw1 1 (freshState Hw1 0) (Reachable.boot 0) (by decide)
    0 gW1 (by decide)

end Odan
